import Mathlib

/-!
Verification of the local relevance-scoring search of the alumni-directory
application (`src/js/search.js`, class `SearchManager`).

The scorer is embedded shallowly: JS strings become `List Char`, JS numbers
(used only for scores/weights, all exact decimals) become `ℚ`, the module
`Map` used as a search cache becomes an association list in insertion order,
and possibly-absent (`undefined`) fields become `Option`.  JS template-string
interpolation of an absent field produces the literal text "undefined"; the
embedding reproduces that (`tmpl`).
-/

/-- JS strings are modelled as lists of characters. -/
abbrev Str := List Char

/-- Whitespace recognised by `trim` / `split(/\s+/)` (ASCII subset used here). -/
def isJsWs (c : Char) : Bool :=
  c == ' ' || c == '\t' || c == '\n' || c == '\r'

/-- `String.prototype.trim`: remove whitespace from both ends. -/
def trimStr (s : Str) : Str :=
  ((s.dropWhile isJsWs).reverse.dropWhile isJsWs).reverse

/-- `String.prototype.toLowerCase` (ASCII; all data here is ASCII). -/
def toLowerStr (s : Str) : Str := s.map Char.toLower

/-- `String.prototype.includes`: substring containment. -/
def strIncludes : Str → Str → Bool
  | text, sub =>
    if sub.isPrefixOf text then true
    else
      match text with
      | [] => false
      | _ :: rest => strIncludes rest sub

/-- Helper for `splitWs`: accumulates the current token (reversed). -/
def splitWsAux : Str → Str → List Str
  | [], acc => [acc.reverse]
  | c :: cs, acc =>
    if isJsWs c then acc.reverse :: splitWsAux cs []
    else splitWsAux cs (c :: acc)

/-- `query.split(/\s+/)`.  Splitting at every whitespace character may produce
empty tokens where the regex collapses runs; all such tokens are removed by the
`length > 2` keyword filter, so the two are interchangeable there. -/
def splitWs (s : Str) : List Str := splitWsAux s []

/-- `industry.replace('-', ' ')`: JS `replace` with a string pattern replaces
only the first occurrence. -/
def replaceFirstHyphen : Str → Str
  | [] => []
  | c :: rest => if c == '-' then ' ' :: rest else c :: replaceFirstHyphen rest

/-- A single space, used by template strings and `join(' ')`. -/
def spc : Str := [' ']

/-- `Array.prototype.join(' ')`. -/
def joinSpace (xs : List Str) : Str := List.intercalate spc xs

/-- One row of the DP matrix of `levenshteinDistance`, given the previous row
as a function: `levRow str1 str2 i prevRow j` is `matrix[i+1][j]`. -/
def levRow (str1 str2 : Str) (i : Nat) (prevRow : Nat → Nat) : Nat → Nat
  | 0 => i + 1
  | j + 1 =>
    if str2.getD i ' ' = str1.getD j ' ' then prevRow j
    else
      min (prevRow j + 1)
        (min (levRow str1 str2 i prevRow j + 1) (prevRow (j + 1) + 1))

/-- The DP matrix of `levenshteinDistance(str1, str2)`: `levMatrix str1 str2 i j`
is `matrix[i][j]`, where row index `i` ranges over prefixes of `str2` and
column index `j` over prefixes of `str1`, exactly as the source loops fill it. -/
def levMatrix (str1 str2 : Str) : Nat → Nat → Nat
  | 0, j => j
  | i + 1, j => levRow str1 str2 i (levMatrix str1 str2 i) j

/-- `levenshteinDistance(str1, str2)` returns `matrix[str2.length][str1.length]`. -/
def levenshteinDistance (str1 str2 : Str) : Nat :=
  levMatrix str1 str2 str2.length str1.length

/-- `stringSimilarity(str1, str2)`: `(longer.length - distance) / longer.length`,
with the empty-vs-empty case defined as `1.0`. -/
def stringSimilarity (str1 str2 : Str) : ℚ :=
  let longer := if str2.length < str1.length then str1 else str2
  let shorter := if str2.length < str1.length then str2 else str1
  if longer.length = 0 then 1
  else ((longer.length : ℚ) - (levenshteinDistance longer shorter : ℚ)) / (longer.length : ℚ)

/-- `fuzzyMatch(text, keywords)`: per keyword, 1 point for verbatim containment,
otherwise the similarity as a fractional point when it exceeds 0.7; the total is
divided by the keyword count and clamped to 1.  Empty text or keyword list
yields 0 (`!text || !keywords.length`). -/
def fuzzyMatch (text : Str) (keywords : List Str) : ℚ :=
  if text.isEmpty || keywords.isEmpty then 0
  else
    let matchPoints := keywords.foldl (fun acc keyword =>
      if strIncludes text keyword then acc + 1
      else
        let similarity := stringSimilarity text keyword
        if (0.7 : ℚ) < similarity then acc + similarity else acc) 0
    min (matchPoints / (keywords.length : ℚ)) 1

/-- The fixed industry vocabulary of `extractSearchTerms`. -/
def industriesVocab : List Str :=
  ["technology".toList, "finance".toList, "healthcare".toList, "education".toList,
   "consulting".toList, "marketing".toList, "real-estate".toList, "nonprofit".toList]

/-- The fixed role vocabulary of `extractSearchTerms`. -/
def rolesVocab : List Str :=
  ["founder".toList, "ceo".toList, "manager".toList, "director".toList,
   "engineer".toList, "consultant".toList, "analyst".toList, "designer".toList]

/-- The fixed location vocabulary of `extractSearchTerms`. -/
def locationsVocab : List Str :=
  ["san francisco".toList, "new york".toList, "london".toList, "toronto".toList,
   "singapore".toList, "tokyo".toList]

/-- The fixed networking-goal vocabulary of `extractSearchTerms`. -/
def goalsVocab : List Str :=
  ["mentorship".toList, "partnerships".toList, "job opportunities".toList,
   "advice".toList, "connections".toList]

/-- The fixed experience vocabulary of `extractSearchTerms`. -/
def experienceVocab : List Str :=
  ["junior".toList, "mid".toList, "senior".toList, "entry level".toList,
   "experienced".toList]

/-- The `terms` object built by `extractSearchTerms` (the fields the scorer
reads: keywords plus the matched fixed-vocabulary lists). -/
structure SearchTerms where
  keywords : List Str
  matchedIndustries : List Str
  matchedRoles : List Str
  matchedLocations : List Str
  matchedGoals : List Str
  matchedExperience : List Str
  deriving DecidableEq

/-- `extractSearchTerms(query)`: lowercase the query, keep whitespace tokens of
length > 2 as keywords, and filter each fixed vocabulary by substring
containment in the whole normalized query (industries also via the
hyphen-replaced-by-space variant). -/
def extractSearchTerms (query : Str) : SearchTerms :=
  let normalizedQuery := toLowerStr query
  { keywords := (splitWs normalizedQuery).filter (fun word => 2 < word.length)
    matchedIndustries := industriesVocab.filter (fun industry =>
      strIncludes normalizedQuery industry ||
        strIncludes normalizedQuery (replaceFirstHyphen industry))
    matchedRoles := rolesVocab.filter (fun role => strIncludes normalizedQuery role)
    matchedLocations := locationsVocab.filter (fun location =>
      strIncludes normalizedQuery location)
    matchedGoals := goalsVocab.filter (fun goal => strIncludes normalizedQuery goal)
    matchedExperience := experienceVocab.filter (fun e => strIncludes normalizedQuery e) }

/-- `personal.location`: nested optional city/country. -/
structure Loc where
  city : Option Str
  country : Option Str
  deriving DecidableEq

/-- `alumni.personal` (only the fields the scorer reads). -/
structure Personal where
  name : Option Str
  location : Option Loc
  deriving DecidableEq

/-- `alumni.professional` (only the fields the scorer reads). -/
structure Professional where
  current_role : Option Str
  company : Option Str
  industry : Option Str
  expertise_tags : Option (List Str)
  deriving DecidableEq

/-- `alumni.networking` (only the fields the scorer reads). -/
structure Networking where
  goals : Option (List Str)
  offering : Option (List Str)
  deriving DecidableEq

/-- An alumni profile record: three optional groups. -/
structure Alumni where
  personal : Option Personal
  professional : Option Professional
  networking : Option Networking
  deriving DecidableEq

/-- JS truthiness of a possibly-absent string: `undefined` and `""` are falsy. -/
def truthy : Option Str → Bool
  | some s => !s.isEmpty
  | none => false

/-- JS template-string interpolation of a possibly-absent field:
`undefined` prints as the literal text "undefined". -/
def tmpl (o : Option Str) : Str := o.getD "undefined".toList

/-- The weight table of `calculateRelevanceScore`. -/
structure WeightTable where
  name : ℚ
  role : ℚ
  company : ℚ
  industry : ℚ
  expertise : ℚ
  location : ℚ
  networking : ℚ
  exact : ℚ

/-- `weights` as written in the source. -/
def weights : WeightTable :=
  { name := 0.3, role := 0.25, company := 0.2, industry := 0.15,
    expertise := 0.2, location := 0.1, networking := 0.15, exact := 0.5 }

/-- The full-text string of the exact-match check:
`` `${personal.name} ${professional.current_role} ${professional.company}
${professional.industry} ${personal.location?.city}`.toLowerCase() ``.
Absent fields are interpolated as the text "undefined". -/
def fullTextOf (personal : Personal) (professional : Professional) : Str :=
  toLowerStr (tmpl personal.name ++ spc ++ tmpl professional.current_role ++ spc ++
    tmpl professional.company ++ spc ++ tmpl professional.industry ++ spc ++
    tmpl (personal.location.bind Loc.city))

/-- Exact-match signal: `weights.exact` when the raw lowercased query is a
substring of the full-text concatenation. -/
def exactContribution (personal : Personal) (professional : Professional)
    (originalQuery : Str) : ℚ :=
  if strIncludes (fullTextOf personal professional) (toLowerStr originalQuery) then
    weights.exact
  else 0

/-- Name signal: fuzzy match of the lowercased name against the keywords. -/
def nameContribution (searchTerms : SearchTerms) (personal : Personal) : ℚ :=
  if truthy personal.name then
    fuzzyMatch (toLowerStr (personal.name.getD [])) searchTerms.keywords * weights.name
  else 0

/-- Role signal: fuzzy match of the lowercased role against the keywords, plus
`weights.role * 0.5` when a matched fixed-vocabulary role term is a substring
of the lowercased role. -/
def roleContribution (searchTerms : SearchTerms) (professional : Professional) : ℚ :=
  if truthy professional.current_role then
    fuzzyMatch (toLowerStr (professional.current_role.getD [])) searchTerms.keywords
        * weights.role
      + (if searchTerms.matchedRoles.any (fun role =>
            strIncludes (toLowerStr (professional.current_role.getD [])) role) then
          weights.role * 0.5
        else 0)
  else 0

/-- Company signal: fuzzy match of the lowercased company against keywords. -/
def companyContribution (searchTerms : SearchTerms) (professional : Professional) : ℚ :=
  if truthy professional.company then
    fuzzyMatch (toLowerStr (professional.company.getD [])) searchTerms.keywords
      * weights.company
  else 0

/-- Industry signal: full weight when the profile's industry (as stored) is a
member of the matched-industries list. -/
def industryContribution (searchTerms : SearchTerms) (professional : Professional) : ℚ :=
  if truthy professional.industry &&
      searchTerms.matchedIndustries.contains (professional.industry.getD []) then
    weights.industry
  else 0

/-- Expertise signal: fuzzy match of the space-joined lowercased tags against
keywords; triggered whenever `expertise_tags` is present (arrays are truthy). -/
def expertiseContribution (searchTerms : SearchTerms) (professional : Professional) : ℚ :=
  match professional.expertise_tags with
  | some tags => fuzzyMatch (toLowerStr (joinSpace tags)) searchTerms.keywords
      * weights.expertise
  | none => 0

/-- Location signal: full weight when the lowercased "city country" text
contains a matched location phrase (absent city/country interpolate as
"undefined"). -/
def locationContribution (searchTerms : SearchTerms) (personal : Personal) : ℚ :=
  match personal.location with
  | some loc =>
    if searchTerms.matchedLocations.any (fun l =>
        strIncludes (toLowerStr (tmpl loc.city ++ spc ++ tmpl loc.country)) l) then
      weights.location
    else 0
  | none => 0

/-- Networking signal: full weight when the joined goals+offering text contains
a matched goal phrase; triggered when either array is present. -/
def networkingContribution (searchTerms : SearchTerms) (networking : Networking) : ℚ :=
  if networking.goals.isSome || networking.offering.isSome then
    if searchTerms.matchedGoals.any (fun goal =>
        strIncludes (toLowerStr (joinSpace (networking.goals.getD [] ++
          networking.offering.getD []))) goal) then
      weights.networking
    else 0
  else 0

/-- `calculateRelevanceScore(alumni, searchTerms, originalQuery)`: the sequence
of `score += …` steps written as a sum of the eight signal contributions,
capped at 1.0.  The three groups null-coalesce to `{}` (all fields absent). -/
def calculateRelevanceScore (alumni : Alumni) (searchTerms : SearchTerms)
    (originalQuery : Str) : ℚ :=
  let personal := alumni.personal.getD ⟨none, none⟩
  let professional := alumni.professional.getD ⟨none, none, none, none⟩
  let networking := alumni.networking.getD ⟨none, none⟩
  min (exactContribution personal professional originalQuery
    + nameContribution searchTerms personal
    + roleContribution searchTerms professional
    + companyContribution searchTerms professional
    + industryContribution searchTerms professional
    + expertiseContribution searchTerms professional
    + locationContribution searchTerms personal
    + networkingContribution searchTerms networking) 1.0

/-- An element of the result list: the profile spread together with
`searchRelevance` and `searchQuery`. -/
structure ScoredResult where
  alumni : Alumni
  searchRelevance : ℚ
  searchQuery : Str
  deriving DecidableEq

/-- Descending order on results by `searchRelevance`, the comparator
`(a, b) => b.searchRelevance - a.searchRelevance`. -/
def relDesc (a b : ScoredResult) : Prop :=
  b.searchRelevance ≤ a.searchRelevance

instance : DecidableRel relDesc := fun a b =>
  inferInstanceAs (Decidable (b.searchRelevance ≤ a.searchRelevance))

instance : IsTotal ScoredResult relDesc :=
  ⟨fun a b => le_total b.searchRelevance a.searchRelevance⟩

instance : IsTrans ScoredResult relDesc :=
  ⟨fun _ _ _ h1 h2 => le_trans h2 h1⟩

/-- The unsorted result accumulation of `performLocalSearch`: score every
profile and keep those with score strictly above 0.1, in input order. -/
def scoredResults (data : List Alumni) (query : Str) : List ScoredResult :=
  let searchTerms := extractSearchTerms query
  data.filterMap (fun alumni =>
    let relevanceScore := calculateRelevanceScore alumni searchTerms query
    if (0.1 : ℚ) < relevanceScore then
      some ⟨alumni, relevanceScore, query⟩
    else none)

/-- `performLocalSearch(query)` over the profile list: filter by the 0.1
threshold, then `sort((a, b) => b.searchRelevance - a.searchRelevance)`
(`Array.prototype.sort` is stable, so a stable insertion sort models it). -/
def performLocalSearch (data : List Alumni) (query : Str) : List ScoredResult :=
  List.insertionSort relDesc (scoredResults data query)

/-- The search cache: the module-level `Map` in insertion order.  Reachable
states have pairwise-distinct keys (a `Map` keys uniquely). -/
abbrev Cache := List (Str × List ScoredResult)

/-- `searchCache.get(key)` / `has(key)`: first entry with the given key. -/
def cacheGet (cache : Cache) (key : Str) : Option (List ScoredResult) :=
  (cache.find? (fun e => e.1 == key)).map (fun e => e.2)

/-- `this.maxCacheSize = 100`. -/
def maxCacheSize : Nat := 100

/-- `Map.prototype.set`: update in place if the key exists (keeping insertion
order), otherwise append at the end. -/
def mapSet (cache : Cache) (key : Str) (value : List ScoredResult) : Cache :=
  if (cache.find? (fun e => e.1 == key)).isSome then
    cache.map (fun e => if e.1 == key then (key, value) else e)
  else cache ++ [(key, value)]

/-- `cacheSearchResults(query, results)`: when at capacity, delete the entry
under the first (oldest inserted) key — `searchCache.keys().next().value` —
then insert.  `Map.delete` removes the entry with that key (keys are unique in
a `Map`; on such states the filter removes exactly that entry). -/
def cacheSearchResults (cache : Cache) (query : Str)
    (results : List ScoredResult) : Cache :=
  let trimmed :=
    if maxCacheSize ≤ cache.length then
      match cache with
      | [] => cache
      | first :: _ => cache.filter (fun e => !(e.1 == first.1))
    else cache
  mapSet trimmed query results

/-- `query.trim().toLowerCase()`, the cache key. -/
def normalizeQuery (query : Str) : Str := toLowerStr (trimStr query)

/-- `performSearch(query)` on the local path (`useAI` is false): empty or
whitespace-only query clears the search (`none`); otherwise a cache hit
returns the cached list with the cache untouched, and a cache miss runs
`performLocalSearch` on the raw query and caches the result under the
normalized query.  Returns the displayed results and the new cache state. -/
def performSearch (cache : Cache) (data : List Alumni) (query : Str) :
    Option (List ScoredResult × Cache) :=
  if (trimStr query).isEmpty then none
  else
    let normalizedQuery := normalizeQuery query
    match cacheGet cache normalizedQuery with
    | some cachedResults => some (cachedResults, cache)
    | none =>
      let results := performLocalSearch data query
      some (results, cacheSearchResults cache normalizedQuery results)

/-- Modelled from the spec's wording of the fuzzy match, for comparison with
the source's `fuzzyMatch`: per keyword, 1 point for verbatim containment,
otherwise `1 − distance / (length of the longer string)` as a fractional point
when that similarity exceeds 0.7; sum, divide by keyword count, clamp to 1.0;
empty keyword list or empty text yields 0. -/
def fuzzyMatchSpec (text : Str) (keywords : List Str) : ℚ :=
  if text.isEmpty || keywords.isEmpty then 0
  else
    min ((keywords.map (fun keyword =>
      if strIncludes text keyword then (1 : ℚ)
      else
        let similarity :=
          1 - (levenshteinDistance text keyword : ℚ)
            / (max text.length keyword.length : ℚ)
        if (0.7 : ℚ) < similarity then similarity else 0)).sum
      / (keywords.length : ℚ)) 1

/-- The profile of the spec's worked example: role "Founder & CEO", all other
fields absent. -/
def founderAlumni : Alumni :=
  ⟨none, some ⟨some "Founder & CEO".toList, none, none, none⟩, none⟩

/-- A profile whose three optional groups are all absent. -/
def emptyAlumni : Alumni := ⟨none, none, none⟩

/-- A full cache: 100 distinct single-character keys, oldest first. -/
def fullCacheRest : Cache :=
  (List.range 99).map (fun i => ([Char.ofNat (66 + i)], []))

/-- The same full cache with its oldest entry exposed. -/
def fullCache : Cache := ([Char.ofNat 65], []) :: fullCacheRest

/-! ### Levenshtein matrix lemmas -/

/-- The matrix recurrence exactly as the source writes it:
`min(diag + 1, left + 1, up + 1)`, diagonal reuse on equal characters. -/
theorem levMatrix_succ_succ (str1 str2 : Str) (i j : Nat) :
    levMatrix str1 str2 (i + 1) (j + 1) =
      if str2.getD i ' ' = str1.getD j ' ' then levMatrix str1 str2 i j
      else
        min (levMatrix str1 str2 i j + 1)
          (min (levMatrix str1 str2 (i + 1) j + 1) (levMatrix str1 str2 i (j + 1) + 1)) :=
  rfl

/-- Column 0 of the DP matrix is the row index. -/
theorem levMatrix_zero_right (str1 str2 : Str) (i : Nat) :
    levMatrix str1 str2 i 0 = i := by
  cases i <;> rfl

/-- Transposing the matrix swaps the two strings: entry `(i, j)` for
`(str1, str2)` equals entry `(j, i)` for `(str2, str1)`. -/
theorem levMatrix_comm (str1 str2 : Str) :
    ∀ i j, levMatrix str1 str2 i j = levMatrix str2 str1 j i := by
  intro i
  induction i with
  | zero =>
    intro j
    cases j with
    | zero => rfl
    | succ j => rfl
  | succ i ih =>
    intro j
    induction j with
    | zero => rfl
    | succ j jh =>
      rw [levMatrix_succ_succ, levMatrix_succ_succ]
      by_cases h : str2.getD i ' ' = str1.getD j ' '
      · rw [if_pos h, if_pos h.symm, ih j]
      · rw [if_neg h, if_neg (fun hh => h hh.symm), ih j, ih (j + 1), jh]
        omega

/-- Every matrix entry is at most the larger of its indices. -/
theorem levMatrix_le_max (str1 str2 : Str) :
    ∀ i j, levMatrix str1 str2 i j ≤ max i j := by
  intro i
  induction i with
  | zero => intro j; simp [levMatrix]
  | succ i ih =>
    intro j
    induction j with
    | zero => simp [levMatrix_zero_right]
    | succ j jh =>
      rw [levMatrix_succ_succ]
      have hd := ih j
      have hu := ih (j + 1)
      by_cases h : str2.getD i ' ' = str1.getD j ' '
      · rw [if_pos h]; omega
      · rw [if_neg h]; omega

/-- Every matrix entry is at least the difference of its indices. -/
theorem levMatrix_ge_sub (str1 str2 : Str) :
    ∀ i j, i - j ≤ levMatrix str1 str2 i j ∧ j - i ≤ levMatrix str1 str2 i j := by
  intro i
  induction i with
  | zero => intro j; simp [levMatrix]
  | succ i ih =>
    intro j
    induction j with
    | zero => simp [levMatrix_zero_right]
    | succ j jh =>
      rw [levMatrix_succ_succ]
      have hd := ih j
      have hu := ih (j + 1)
      by_cases h : str2.getD i ' ' = str1.getD j ' '
      · rw [if_pos h]; omega
      · rw [if_neg h]; omega

/-- Symmetry of `levenshteinDistance`, as a reusable fact. -/
theorem levDist_comm (a b : Str) : levenshteinDistance a b = levenshteinDistance b a := by
  unfold levenshteinDistance
  rw [levMatrix_comm]

/-- The distance is bounded by the longer length. -/
theorem levDist_le_max (a b : Str) :
    levenshteinDistance a b ≤ max a.length b.length := by
  have := levMatrix_le_max a b b.length a.length
  unfold levenshteinDistance
  omega

/-- The distance is at least the length difference. -/
theorem levDist_ge_sub (a b : Str) :
    a.length - b.length ≤ levenshteinDistance a b ∧
      b.length - a.length ≤ levenshteinDistance a b := by
  have := levMatrix_ge_sub a b b.length a.length
  unfold levenshteinDistance
  omega

/-- C9: the Levenshtein distance function is symmetric:
`levenshteinDistance(a, b) = levenshteinDistance(b, a)` for all strings. -/
theorem levenshteinDistance_symm (a b : Str) :
    levenshteinDistance a b = levenshteinDistance b a :=
  levDist_comm a b

/-- The ratio `(L - d) / L` lies in `[0, 1]` once `d ≤ L`. -/
theorem ratio_mem_unit (L d : ℕ) (hd : d ≤ L) (hL : L ≠ 0) :
    0 ≤ ((L : ℚ) - (d : ℚ)) / (L : ℚ) ∧ ((L : ℚ) - (d : ℚ)) / (L : ℚ) ≤ 1 := by
  have hLq : (0 : ℚ) < (L : ℚ) := by exact_mod_cast Nat.pos_of_ne_zero hL
  have hdq : (d : ℚ) ≤ (L : ℚ) := by exact_mod_cast hd
  have hd0 : (0 : ℚ) ≤ (d : ℚ) := by positivity
  constructor
  · apply div_nonneg (by linarith) (by linarith)
  · rw [div_le_one hLq]; linarith

/-- `stringSimilarity` lies in `[0, 1]`, reusable form. -/
theorem stringSimilarity_mem_unit (str1 str2 : Str) :
    0 ≤ stringSimilarity str1 str2 ∧ stringSimilarity str1 str2 ≤ 1 := by
  unfold stringSimilarity
  by_cases hc : str2.length < str1.length
  · simp only [if_pos hc]
    by_cases hz : str1.length = 0
    · rw [if_pos hz]; norm_num
    · rw [if_neg hz]
      exact ratio_mem_unit str1.length (levenshteinDistance str1 str2)
        (by have := levDist_le_max str1 str2; omega) hz
  · simp only [if_neg hc]
    by_cases hz : str2.length = 0
    · rw [if_pos hz]; norm_num
    · rw [if_neg hz]
      exact ratio_mem_unit str2.length (levenshteinDistance str2 str1)
        (by have := levDist_le_max str2 str1; omega) hz

/-- C10: `stringSimilarity` always returns a value in `[0, 1]`; the distance
between the two strings is at least their length difference and at most the
longer length, and the empty-vs-empty case is defined as `1.0`. -/
theorem stringSimilarity_bounds (str1 str2 : Str) :
    (str1.length - str2.length ≤ levenshteinDistance str1 str2 ∧
      str2.length - str1.length ≤ levenshteinDistance str1 str2) ∧
    levenshteinDistance str1 str2 ≤ max str1.length str2.length ∧
    0 ≤ stringSimilarity str1 str2 ∧ stringSimilarity str1 str2 ≤ 1 ∧
    stringSimilarity [] [] = 1 :=
  ⟨levDist_ge_sub str1 str2, levDist_le_max str1 str2,
    (stringSimilarity_mem_unit str1 str2).1, (stringSimilarity_mem_unit str1 str2).2, rfl⟩

/-! ### Fuzzy match bounds -/

/-- The accumulated match points never drop below the start value's sign:
each keyword contributes 1, a similarity above 0.7, or nothing. -/
theorem foldl_points_nonneg (text : Str) :
    ∀ (ks : List Str) (m : ℚ), 0 ≤ m →
      0 ≤ ks.foldl (fun acc keyword =>
        if strIncludes text keyword then acc + 1
        else
          let similarity := stringSimilarity text keyword
          if (0.7 : ℚ) < similarity then acc + similarity else acc) m := by
  intro ks
  induction ks with
  | nil => intro m hm; exact hm
  | cons k ks ih =>
    intro m hm
    rw [List.foldl_cons]
    apply ih
    by_cases h1 : strIncludes text k = true
    · rw [if_pos h1]; linarith
    · rw [if_neg h1]
      dsimp only
      by_cases h2 : (0.7 : ℚ) < stringSimilarity text k
      · rw [if_pos h2]; linarith
      · rw [if_neg h2]; exact hm

/-- `fuzzyMatch` never returns a negative value. -/
theorem fuzzyMatch_nonneg (text : Str) (keywords : List Str) :
    0 ≤ fuzzyMatch text keywords := by
  unfold fuzzyMatch
  by_cases h : (text.isEmpty || keywords.isEmpty) = true
  · rw [if_pos h]
  · rw [if_neg h]
    dsimp only
    refine le_min ?_ (by norm_num)
    exact div_nonneg (foldl_points_nonneg text keywords 0 le_rfl) (by positivity)

/-- `fuzzyMatch` is clamped at 1. -/
theorem fuzzyMatch_le_one (text : Str) (keywords : List Str) :
    fuzzyMatch text keywords ≤ 1 := by
  unfold fuzzyMatch
  by_cases h : (text.isEmpty || keywords.isEmpty) = true
  · rw [if_pos h]; norm_num
  · rw [if_neg h]; dsimp only; exact min_le_right _ _

/-! ### Contribution bounds -/

theorem exactContribution_nonneg (personal : Personal) (professional : Professional)
    (originalQuery : Str) : 0 ≤ exactContribution personal professional originalQuery := by
  unfold exactContribution; split <;> norm_num [weights]

theorem nameContribution_nonneg (searchTerms : SearchTerms) (personal : Personal) :
    0 ≤ nameContribution searchTerms personal := by
  unfold nameContribution; split
  · exact mul_nonneg (fuzzyMatch_nonneg _ _) (by norm_num [weights])
  · exact le_rfl

theorem roleContribution_nonneg (searchTerms : SearchTerms)
    (professional : Professional) : 0 ≤ roleContribution searchTerms professional := by
  unfold roleContribution; split
  · refine add_nonneg (mul_nonneg (fuzzyMatch_nonneg _ _) (by norm_num [weights])) ?_
    split
    · norm_num [weights]
    · exact le_rfl
  · exact le_rfl

theorem companyContribution_nonneg (searchTerms : SearchTerms)
    (professional : Professional) : 0 ≤ companyContribution searchTerms professional := by
  unfold companyContribution; split
  · exact mul_nonneg (fuzzyMatch_nonneg _ _) (by norm_num [weights])
  · exact le_rfl

theorem industryContribution_nonneg (searchTerms : SearchTerms)
    (professional : Professional) : 0 ≤ industryContribution searchTerms professional := by
  unfold industryContribution; split <;> norm_num [weights]

theorem expertiseContribution_nonneg (searchTerms : SearchTerms)
    (professional : Professional) : 0 ≤ expertiseContribution searchTerms professional := by
  unfold expertiseContribution
  cases professional.expertise_tags with
  | none => exact le_rfl
  | some tags => exact mul_nonneg (fuzzyMatch_nonneg _ _) (by norm_num [weights])

theorem locationContribution_nonneg (searchTerms : SearchTerms)
    (personal : Personal) : 0 ≤ locationContribution searchTerms personal := by
  unfold locationContribution
  split
  · split <;> norm_num [weights]
  · exact le_rfl

theorem networkingContribution_nonneg (searchTerms : SearchTerms)
    (networking : Networking) : 0 ≤ networkingContribution searchTerms networking := by
  unfold networkingContribution; split
  · split <;> norm_num [weights]
  · exact le_rfl

/-- C4: `calculateRelevanceScore` always lies in the closed interval
`[0.0, 1.0]`: the triggered weights are all non-negative and the sum is capped
above at 1.0 by the final `Math.min`. -/
theorem calculateRelevanceScore_in_unit (alumni : Alumni) (searchTerms : SearchTerms)
    (originalQuery : Str) :
    0 ≤ calculateRelevanceScore alumni searchTerms originalQuery ∧
      calculateRelevanceScore alumni searchTerms originalQuery ≤ 1 := by
  unfold calculateRelevanceScore
  dsimp only
  constructor
  · refine le_min ?_ (by norm_num)
    refine add_nonneg (add_nonneg (add_nonneg (add_nonneg (add_nonneg (add_nonneg
      (add_nonneg ?_ ?_) ?_) ?_) ?_) ?_) ?_) ?_
    · exact exactContribution_nonneg _ _ _
    · exact nameContribution_nonneg _ _
    · exact roleContribution_nonneg _ _
    · exact companyContribution_nonneg _ _
    · exact industryContribution_nonneg _ _
    · exact expertiseContribution_nonneg _ _
    · exact locationContribution_nonneg _ _
    · exact networkingContribution_nonneg _ _
  · exact le_trans (min_le_right _ _) (by norm_num)

/-- C2: every profile in a local-search result list scored strictly above the
0.1 threshold; nothing at or below 0.1 is ever returned. -/
theorem performLocalSearch_above_threshold (data : List Alumni) (query : Str) :
    ∀ r ∈ performLocalSearch data query, (0.1 : ℚ) < r.searchRelevance := by
  intro r hr
  unfold performLocalSearch at hr
  have hr' : r ∈ scoredResults data query :=
    ((List.perm_insertionSort relDesc _).mem_iff).mp hr
  unfold scoredResults at hr'
  simp only [List.mem_filterMap] at hr'
  obtain ⟨a, -, hfa⟩ := hr'
  by_cases h : (0.1 : ℚ) < calculateRelevanceScore a (extractSearchTerms query) query
  · rw [if_pos h] at hfa
    injection hfa with hres
    subst hres
    exact h
  · rw [if_neg h] at hfa
    simp at hfa

/-! ### Sorting: order and stability -/

/-- Inserting into a list with `orderedInsert` commutes with filtering by a
predicate `p` that is `relDesc`-symmetric on its satisfying elements: the
inserted element lands in front of every kept element. -/
theorem filter_orderedInsert (p : ScoredResult → Bool)
    (hp : ∀ a b, p a = true → p b = true → relDesc a b) :
    ∀ (x : ScoredResult) (l : List ScoredResult),
      (List.orderedInsert relDesc x l).filter p =
        if p x then x :: l.filter p else l.filter p := by
  intro x l
  induction l with
  | nil =>
    simp only [List.orderedInsert, List.filter]
    cases hx : p x <;> simp
  | cons y ys ih =>
    simp only [List.orderedInsert]
    by_cases hr : relDesc x y
    · rw [if_pos hr]
      simp only [List.filter]
      cases hx : p x <;> cases hy : p y <;> simp
    · rw [if_neg hr]
      simp only [List.filter]
      cases hy : p y
      · rw [ih]
      · have hx : p x = false := by
          cases hx : p x
          · rfl
          · exact absurd (hp x y hx hy) hr
        rw [ih, hx]
        simp

/-- Filtering commutes with the whole insertion sort under the same
hypothesis on `p`: the sort is stable. -/
theorem filter_insertionSort (p : ScoredResult → Bool)
    (hp : ∀ a b, p a = true → p b = true → relDesc a b) :
    ∀ l : List ScoredResult,
      (List.insertionSort relDesc l).filter p = l.filter p := by
  intro l
  induction l with
  | nil => rfl
  | cons x xs ih =>
    simp only [List.insertionSort]
    rw [filter_orderedInsert p hp, ih]
    simp only [List.filter]
    cases hx : p x <;> simp

/-- C3: the local search output is sorted non-increasingly by
`searchRelevance`, and profiles with equal scores keep the relative order of
the unsorted accumulation (which scans the input profile list in order):
filtering the output down to any fixed score gives the same sequence as
filtering the pre-sort list. -/
theorem performLocalSearch_sorted_stable (data : List Alumni) (query : Str) :
    List.Sorted relDesc (performLocalSearch data query) ∧
      ∀ s : ℚ, (performLocalSearch data query).filter
          (fun r => r.searchRelevance == s) =
        (scoredResults data query).filter (fun r => r.searchRelevance == s) := by
  constructor
  · exact List.sorted_insertionSort relDesc (scoredResults data query)
  · intro s
    unfold performLocalSearch
    apply filter_insertionSort
    intro a b ha hb
    have ha' : a.searchRelevance = s := by simpa using ha
    have hb' : b.searchRelevance = s := by simpa using hb
    unfold relDesc
    rw [ha', hb']

/-! ### Fuzzy match agrees with its specification -/

/-- For non-empty `text`, `stringSimilarity` computes exactly
`1 − distance / (length of the longer string)`. -/
theorem stringSimilarity_eq_spec (text kw : Str) (h : text ≠ []) :
    stringSimilarity text kw =
      1 - (levenshteinDistance text kw : ℚ) / (max text.length kw.length : ℚ) := by
  have hlen : text.length ≠ 0 := by
    intro hz; exact h (List.length_eq_zero.mp hz)
  unfold stringSimilarity
  by_cases hc : kw.length < text.length
  · simp only [if_pos hc]
    rw [if_neg hlen]
    have hmax : max text.length kw.length = text.length :=
      Nat.max_eq_left (Nat.le_of_lt hc)
    rw [← Nat.cast_max, hmax, sub_div, div_self (by exact_mod_cast hlen)]
  · simp only [if_neg hc]
    have hkw : kw.length ≠ 0 := by omega
    rw [if_neg hkw]
    have hmax : max text.length kw.length = kw.length :=
      Nat.max_eq_right (Nat.le_of_not_lt hc)
    rw [← Nat.cast_max, hmax, levDist_comm kw text, sub_div,
      div_self (by exact_mod_cast hkw)]

/-- The source's `forEach` accumulation equals the start value plus the sum of
the per-keyword points. -/
theorem foldl_points_eq_sum (text : Str) :
    ∀ (ks : List Str) (m : ℚ),
      ks.foldl (fun acc keyword =>
          if strIncludes text keyword then acc + 1
          else
            let similarity := stringSimilarity text keyword
            if (0.7 : ℚ) < similarity then acc + similarity else acc) m
        = m + (ks.map (fun keyword =>
            if strIncludes text keyword then (1 : ℚ)
            else
              let similarity := stringSimilarity text keyword
              if (0.7 : ℚ) < similarity then similarity else 0)).sum := by
  intro ks
  induction ks with
  | nil => intro m; simp
  | cons k ks ih =>
    intro m
    rw [List.foldl_cons, ih, List.map_cons, List.sum_cons]
    dsimp only
    by_cases h1 : strIncludes text k = true
    · rw [if_pos h1, if_pos h1]; ring
    · rw [if_neg h1, if_neg h1]
      by_cases h2 : (0.7 : ℚ) < stringSimilarity text k
      · rw [if_pos h2, if_pos h2]; ring
      · rw [if_neg h2, if_neg h2]; ring

/-- C5: `fuzzyMatch` computes exactly what the spec describes — 1 point per
verbatim containment, otherwise `1 − distance / longer length` as a fractional
point when above 0.7, summed, divided by the keyword count and clamped to 1,
with empty text or keyword list yielding 0 — and its value lies in `[0, 1]`. -/
theorem fuzzyMatch_eq_spec_and_bounded (text : Str) (keywords : List Str) :
    fuzzyMatch text keywords = fuzzyMatchSpec text keywords ∧
      0 ≤ fuzzyMatch text keywords ∧ fuzzyMatch text keywords ≤ 1 := by
  refine ⟨?_, fuzzyMatch_nonneg text keywords, fuzzyMatch_le_one text keywords⟩
  unfold fuzzyMatch fuzzyMatchSpec
  by_cases h : (text.isEmpty || keywords.isEmpty) = true
  · rw [if_pos h, if_pos h]
  · rw [if_neg h, if_neg h]
    have htext : text ≠ [] := by
      intro hn; subst hn; simp at h
    dsimp only
    rw [foldl_points_eq_sum, zero_add]
    have hmap : keywords.map (fun keyword =>
        if strIncludes text keyword then (1 : ℚ)
        else
          let similarity := stringSimilarity text keyword
          if (0.7 : ℚ) < similarity then similarity else 0) =
      keywords.map (fun keyword =>
        if strIncludes text keyword then (1 : ℚ)
        else
          let similarity :=
            1 - (levenshteinDistance text keyword : ℚ)
              / (max text.length keyword.length : ℚ)
          if (0.7 : ℚ) < similarity then similarity else 0) := by
      apply List.map_congr_left
      intro kw _
      dsimp only
      rw [stringSimilarity_eq_spec text kw htext]
    rw [hmap]

/-! ### Cache behaviour -/

/-- `find?` skips a prefix containing no match. -/
theorem find?_append_of_none {α : Type} (p : α → Bool) (l1 l2 : List α)
    (h : l1.find? p = none) : (l1 ++ l2).find? p = l2.find? p := by
  induction l1 with
  | nil => rfl
  | cons a l ih =>
    cases hpa : p a
    · have hpa' : ¬p a = true := by simp [hpa]
      rw [List.find?_cons_of_neg _ hpa'] at h
      rw [List.cons_append, List.find?_cons_of_neg _ hpa']
      exact ih h
    · rw [List.find?_cons_of_pos _ hpa] at h
      cases h

/-- A missed key matches no entry of the cache. -/
theorem cacheGet_none_forall {cache : Cache} {k : Str}
    (h : cacheGet cache k = none) : ∀ e ∈ cache, (e.1 == k) = false := by
  unfold cacheGet at h
  have hf : cache.find? (fun e => e.1 == k) = none := by
    cases hc : cache.find? (fun e => e.1 == k) with
    | none => rfl
    | some e => rw [hc] at h; cases h
  intro e he
  have := List.find?_eq_none.mp hf e he
  simpa using this

/-- Setting a key absent from the map appends it, and a lookup then finds it. -/
theorem mapSet_get_self (c : Cache) (k : Str) (v : List ScoredResult)
    (h : ∀ e ∈ c, (e.1 == k) = false) :
    cacheGet (mapSet c k v) k = some v := by
  have hf : c.find? (fun e => e.1 == k) = none :=
    List.find?_eq_none.mpr (by intro e he; simp [h e he])
  unfold mapSet
  rw [if_neg (by rw [hf]; simp)]
  unfold cacheGet
  rw [find?_append_of_none _ _ _ hf]
  simp [List.find?]

/-- After caching a previously missed query, that query's lookup returns the
cached results. -/
theorem cacheSearchResults_get_self (cache : Cache) (k : Str)
    (v : List ScoredResult) (h : cacheGet cache k = none) :
    cacheGet (cacheSearchResults cache k v) k = some v := by
  have hall := cacheGet_none_forall h
  unfold cacheSearchResults
  dsimp only
  apply mapSet_get_self
  intro e he
  split at he
  · split at he
    · exact hall e he
    · exact hall e (List.mem_filter.mp he).1
  · exact hall e he

/-- C7: two searches whose queries normalize identically, with the profile
list unchanged, return the same ranked list — the second call is answered
from the cache entry written (or already present) for the first, and leaves
the cache untouched. -/
theorem performSearch_cached_idempotent (cache : Cache) (data : List Alumni)
    (q1 q2 : Str) (r1 : List ScoredResult) (c1 : Cache)
    (h1 : performSearch cache data q1 = some (r1, c1))
    (hq : normalizeQuery q1 = normalizeQuery q2) :
    performSearch c1 data q2 = some (r1, c1) := by
  unfold performSearch at h1
  by_cases he1 : (trimStr q1).isEmpty = true
  · rw [if_pos he1] at h1; cases h1
  · rw [if_neg he1] at h1
    have he2 : ¬(trimStr q2).isEmpty = true := by
      intro he2
      have h2nil : trimStr q2 = [] := by
        cases hl : trimStr q2 with
        | nil => rfl
        | cons c cs => rw [hl] at he2; cases he2
      have hn2 : normalizeQuery q2 = [] := by
        unfold normalizeQuery toLowerStr
        rw [h2nil]; rfl
      rw [hn2] at hq
      have h1nil : trimStr q1 = [] := by
        have := hq
        unfold normalizeQuery toLowerStr at this
        exact List.map_eq_nil_iff.mp this
      rw [h1nil] at he1
      exact he1 rfl
    unfold performSearch
    rw [if_neg he2, ← hq]
    dsimp only at h1 ⊢
    cases hc : cacheGet cache (normalizeQuery q1) with
    | some cached =>
      rw [hc] at h1
      injection h1 with hp
      rw [Prod.mk.injEq] at hp
      obtain ⟨hr, hc1⟩ := hp
      subst hr; subst hc1
      rw [hc]
    | none =>
      rw [hc] at h1
      injection h1 with hp
      rw [Prod.mk.injEq] at hp
      obtain ⟨hr, hc1⟩ := hp
      subst hr
      subst hc1
      rw [cacheSearchResults_get_self cache (normalizeQuery q1)
        (performLocalSearch data q1) hc]

/-- C8: the cache obeys its capacity bound, eviction at capacity is strict
FIFO — with distinct keys and a fresh key, the oldest (first-inserted) entry
is removed and the rest keep their order with the new entry appended — and a
query whose key is no longer cached is recomputed by `performLocalSearch`
(deterministically, so the result content is unchanged). -/
theorem cache_bounded_fifo :
    (∀ (cache : Cache) (k : Str) (v : List ScoredResult),
      cache.length ≤ maxCacheSize →
        (cacheSearchResults cache k v).length ≤ maxCacheSize) ∧
    (∀ (first : Str × List ScoredResult) (rest : Cache) (k : Str)
        (v : List ScoredResult),
      (first :: rest).length = maxCacheSize →
      ((first :: rest).map Prod.fst).Nodup →
      cacheGet (first :: rest) k = none →
      cacheSearchResults (first :: rest) k v = rest ++ [(k, v)]) ∧
    (∀ (cache : Cache) (data : List Alumni) (q : Str),
      (trimStr q).isEmpty = false →
      cacheGet cache (normalizeQuery q) = none →
      performSearch cache data q =
        some (performLocalSearch data q,
          cacheSearchResults cache (normalizeQuery q) (performLocalSearch data q))) := by
  refine ⟨?_, ?_, ?_⟩
  · intro cache k v hlen
    unfold cacheSearchResults
    dsimp only
    have hms : ∀ c : Cache, (mapSet c k v).length ≤ c.length + 1 := by
      intro c; unfold mapSet; split
      · rw [List.length_map]; omega
      · rw [List.length_append]; simp
    split
    · rename_i hfull
      split
      · simp [maxCacheSize] at hfull
      · rename_i first rest
        refine le_trans (hms _) ?_
        have hhead : (first :: rest).filter (fun e => !(e.1 == first.1)) =
            rest.filter (fun e => !(e.1 == first.1)) := by
          rw [List.filter_cons]; simp
        rw [hhead]
        have hfl := List.length_filter_le (fun e => !(e.1 == first.1)) rest
        simp only [List.length_cons] at hlen
        omega
    · rename_i hnotfull
      refine le_trans (hms _) ?_
      omega
  · intro first rest k v hlen hnodup hget
    have hall := cacheGet_none_forall hget
    unfold cacheSearchResults
    dsimp only
    rw [if_pos (le_of_eq hlen.symm)]
    have hhead : (first :: rest).filter (fun e => !(e.1 == first.1)) =
        rest.filter (fun e => !(e.1 == first.1)) := by
      rw [List.filter_cons]; simp
    rw [hhead]
    have hrest : rest.filter (fun e => !(e.1 == first.1)) = rest := by
      rw [List.filter_eq_self]
      intro e he
      rw [List.map_cons, List.nodup_cons] at hnodup
      have hne : e.1 ≠ first.1 := by
        intro hh
        exact hnodup.1 (List.mem_map.mpr ⟨e, he, hh⟩)
      simp [hne]
    rw [hrest]
    unfold mapSet
    have hf : rest.find? (fun e => e.1 == k) = none :=
      List.find?_eq_none.mpr
        (by intro e he; simp [hall e (List.mem_cons_of_mem _ he)])
    rw [if_neg (by rw [hf]; simp)]
  · intro cache data q hte hget
    unfold performSearch
    rw [if_neg (by rw [hte]; simp)]
    dsimp only
    rw [hget]

/-! ### Concrete evaluations -/

theorem nameContribution_none (t : SearchTerms) (l : Option Loc) :
    nameContribution t ⟨none, l⟩ = 0 := rfl

theorem roleContribution_none (t : SearchTerms) (c i : Option Str)
    (e : Option (List Str)) : roleContribution t ⟨none, c, i, e⟩ = 0 := rfl

theorem companyContribution_none (t : SearchTerms) (r i : Option Str)
    (e : Option (List Str)) : companyContribution t ⟨r, none, i, e⟩ = 0 := rfl

theorem industryContribution_none (t : SearchTerms) (r c : Option Str)
    (e : Option (List Str)) : industryContribution t ⟨r, c, none, e⟩ = 0 := rfl

theorem expertiseContribution_none (t : SearchTerms) (r c i : Option Str) :
    expertiseContribution t ⟨r, c, i, none⟩ = 0 := rfl

theorem locationContribution_none (t : SearchTerms) (n : Option Str) :
    locationContribution t ⟨n, none⟩ = 0 := rfl

theorem networkingContribution_none (t : SearchTerms) :
    networkingContribution t ⟨none, none⟩ = 0 := rfl

/-- A single profile scoring above the threshold is returned alone. -/
theorem performLocalSearch_singleton (a : Alumni) (q : Str) (s : ℚ)
    (hs : calculateRelevanceScore a (extractSearchTerms q) q = s)
    (h01 : (0.1 : ℚ) < s) :
    performLocalSearch [a] q = [⟨a, s, q⟩] := by
  unfold performLocalSearch scoredResults
  dsimp only
  simp only [List.filterMap_cons, List.filterMap_nil]
  rw [hs, if_pos h01]
  simp [List.insertionSort, List.orderedInsert]

theorem fuzzyMatch_founder :
    fuzzyMatch (toLowerStr "Founder & CEO".toList) ["founder".toList] = 1 := by
  unfold fuzzyMatch
  rw [if_neg (by decide)]
  dsimp only
  rw [List.foldl_cons,
    if_pos (by decide :
      strIncludes (toLowerStr "Founder & CEO".toList) "founder".toList = true),
    List.foldl_nil]
  norm_num

theorem extractSearchTerms_founder_keywords :
    (extractSearchTerms "founder".toList).keywords = ["founder".toList] := by decide

theorem roleContribution_founder_eval :
    roleContribution (extractSearchTerms "founder".toList)
      ⟨some "Founder & CEO".toList, none, none, none⟩ = 0.375 := by
  unfold roleContribution
  rw [if_pos (by decide :
    truthy (Professional.mk (some "Founder & CEO".toList) none none none).current_role
      = true)]
  dsimp only
  simp only [Option.getD_some]
  rw [if_pos (by decide), extractSearchTerms_founder_keywords, fuzzyMatch_founder]
  norm_num [weights]

theorem exactContribution_founder :
    exactContribution ⟨none, none⟩ ⟨some "Founder & CEO".toList, none, none, none⟩
      "founder".toList = 0.5 := by
  unfold exactContribution
  rw [if_pos (by decide)]
  norm_num [weights]

theorem score_founder :
    calculateRelevanceScore founderAlumni (extractSearchTerms "founder".toList)
      "founder".toList = 0.875 := by
  unfold calculateRelevanceScore founderAlumni
  simp only [Option.getD_none, Option.getD_some]
  rw [exactContribution_founder, nameContribution_none, roleContribution_founder_eval,
    companyContribution_none, industryContribution_none, expertiseContribution_none,
    locationContribution_none, networkingContribution_none]
  norm_num

/-- C6: whenever the profile has a (non-empty) role and some matched
fixed-vocabulary role term is a substring of the lowercased role, the role
signal is the fuzzy-match contribution `* 0.25` plus the extra `0.125`
(half the role weight); in particular, for the query "founder" against the
role "Founder & CEO" the keyword is contained verbatim, so the fuzzy score is
1.0 and the full `0.25 + 0.125` applies. -/
theorem roleContribution_vocab_bonus :
    (∀ (searchTerms : SearchTerms) (professional : Professional) (r : Str),
      professional.current_role = some r → r ≠ [] →
      (searchTerms.matchedRoles.any fun role =>
        strIncludes (toLowerStr r) role) = true →
      roleContribution searchTerms professional =
        fuzzyMatch (toLowerStr r) searchTerms.keywords * 0.25 + 0.125) ∧
    fuzzyMatch (toLowerStr "Founder & CEO".toList)
        (extractSearchTerms "founder".toList).keywords = 1 ∧
    roleContribution (extractSearchTerms "founder".toList)
        ⟨some "Founder & CEO".toList, none, none, none⟩ = 0.25 + 0.125 := by
  refine ⟨?_, ?_, ?_⟩
  · intro searchTerms professional r hrole hne hany
    unfold roleContribution
    rw [hrole]
    have htr : truthy (some r) = true := by
      unfold truthy
      cases r with
      | nil => exact absurd rfl hne
      | cons c cs => rfl
    rw [if_pos htr]
    simp only [Option.getD_some]
    rw [if_pos hany]
    norm_num [weights]
  · rw [extractSearchTerms_founder_keywords]
    exact fuzzyMatch_founder
  · rw [roleContribution_founder_eval]
    norm_num

/-- Witness for C6: the general role-bonus equation applied to the worked
"founder" example, with every hypothesis discharged concretely. -/
theorem roleContribution_vocab_bonus_witness :
    roleContribution (extractSearchTerms "founder".toList)
        ⟨some "Founder & CEO".toList, none, none, none⟩ =
      fuzzyMatch (toLowerStr "Founder & CEO".toList)
          (extractSearchTerms "founder".toList).keywords * 0.25 + 0.125 :=
  roleContribution_vocab_bonus.1 (extractSearchTerms "founder".toList)
    ⟨some "Founder & CEO".toList, none, none, none⟩ "Founder & CEO".toList
    rfl (by decide) (by decide)

theorem performLocalSearch_founder :
    performLocalSearch [founderAlumni] "founder".toList =
      [⟨founderAlumni, 0.875, "founder".toList⟩] :=
  performLocalSearch_singleton founderAlumni "founder".toList 0.875
    score_founder (by norm_num)

/-- Witness for C2: a concrete search returns a result, and the theorem
instantiated at it certifies its score is above the threshold. -/
theorem performLocalSearch_above_threshold_witness :
    (0.1 : ℚ) <
      (ScoredResult.mk founderAlumni 0.875 "founder".toList).searchRelevance :=
  performLocalSearch_above_threshold [founderAlumni] "founder".toList
    ⟨founderAlumni, 0.875, "founder".toList⟩
    (by rw [performLocalSearch_founder]; exact List.mem_singleton_self _)

/-- C1 evidence: for the all-absent profile, the exact-match full text is
"undefined undefined undefined undefined undefined", so the query "fine"
(a substring of "undefined") triggers the 0.5 exact weight: the profile
scores 0.5, not 0.0, and is returned by the local search instead of being
filtered out. -/
theorem emptyProfile_fine_query_scores_half :
    calculateRelevanceScore emptyAlumni (extractSearchTerms "fine".toList)
        "fine".toList = 0.5 ∧
      performLocalSearch [emptyAlumni] "fine".toList =
        [⟨emptyAlumni, 0.5, "fine".toList⟩] := by
  have hex : exactContribution ⟨none, none⟩ ⟨none, none, none, none⟩
      "fine".toList = 0.5 := by
    unfold exactContribution
    rw [if_pos (by decide)]
    norm_num [weights]
  have hscore : calculateRelevanceScore emptyAlumni
      (extractSearchTerms "fine".toList) "fine".toList = 0.5 := by
    unfold calculateRelevanceScore emptyAlumni
    simp only [Option.getD_none]
    rw [hex, nameContribution_none, roleContribution_none, companyContribution_none,
      industryContribution_none, expertiseContribution_none, locationContribution_none,
      networkingContribution_none]
    norm_num
  exact ⟨hscore,
    performLocalSearch_singleton emptyAlumni "fine".toList 0.5 hscore (by norm_num)⟩

/-- Witness for C7: a cold search for "Tech" fills the cache under "tech";
the idempotence theorem then answers the differently-written query "tech "
from that entry, returning the identical list and leaving the cache as is. -/
theorem performSearch_cached_idempotent_witness :
    performSearch [("tech".toList, ([] : List ScoredResult))] [] "tech ".toList =
      some ([], [("tech".toList, [])]) :=
  performSearch_cached_idempotent [] [] "Tech".toList "tech ".toList
    [] [("tech".toList, [])] (by decide) (by decide)

/-- Witness for C8: on a concrete 100-entry cache, inserting a fresh key
evicts exactly the oldest entry, the bound still holds, and a search for an
uncached query recomputes via `performLocalSearch`. -/
theorem cache_bounded_fifo_witness :
    cacheSearchResults fullCache "!".toList [] =
        fullCacheRest ++ [("!".toList, [])] ∧
      (cacheSearchResults fullCache "!".toList []).length ≤ maxCacheSize ∧
      performSearch fullCache [] "zz".toList =
        some (performLocalSearch [] "zz".toList,
          cacheSearchResults fullCache (normalizeQuery "zz".toList)
            (performLocalSearch [] "zz".toList)) :=
  ⟨cache_bounded_fifo.2.1 ([Char.ofNat 65], []) fullCacheRest "!".toList []
      (by decide) (by decide) (by decide),
    cache_bounded_fifo.1 fullCache "!".toList [] (by decide),
    cache_bounded_fifo.2.2 fullCache [] "zz".toList (by decide) (by decide)⟩
